import Mathlib

/-!
Verification of the PRarena backfill/reconciliation scripts.

Definitions are shallow embeddings of the Python sources:
- `add_nondraft_final.py` (interpolating backfill with strategic sampling),
- `scripts/add_nondraft_final.py` (exact backfill with constraint clamping),
- `scripts/reconcile_codegen_merged.py` (codegen merged-count reconciler),
- `collect_data.py` (the scheduled collector).
Python float arithmetic is modelled exactly (as rational arithmetic, realised
with integer fractions so that everything evaluates in the kernel); datetimes
are modelled as integer seconds since an arbitrary epoch.
-/

namespace PRarena

set_option maxRecDepth 40000

/-- Python's builtin `round` applied to the exact fraction `num / den`
(`den > 0` assumed): round half to even (banker's rounding).
`num / den` and `num % den` are Euclidean quotient/remainder, so for
`den > 0` the quotient is the floor and `0 ≤ num % den < den`. -/
def pyRoundFrac (num den : ℤ) : ℤ :=
  let q := num / den
  let r := num % den
  if 2 * r < den then q
  else if den < 2 * r then q + 1
  else if q % 2 = 0 then q else q + 1

/-- `interpolate_linear` from `add_nondraft_final.py` lines 107-121 with
its float arithmetic idealised as exact rational arithmetic:
`round(start_val + (end_val - start_val) * ratio)` with
`ratio = (target_time - start_time) / (end_time - start_time)`,
returning `start_val` when `start_time == end_time`.
The exact value `start_val + (end_val - start_val) * ratio` equals the
fraction `(start_val * d + (end_val - start_val) * (target_time - start_time)) / d`
with `d = end_time - start_time`; the sign of `d` is normalised so that
`pyRoundFrac` receives a positive denominator.
The source actually evaluates the expression in IEEE-754 doubles, which
can land on the other side of a rounding boundary; `interpolate_linear_fp`
below models that computation bit-faithfully. `fillRow` uses this exact
version: the backfill claims proved about it (which row gets a sampled
versus an interpolated value) do not depend on the interpolated numeric
values. -/
def interpolate_linear (start_val end_val start_time end_time target_time : ℤ) : ℤ :=
  if start_time = end_time then start_val
  else
    let d := end_time - start_time
    let num := start_val * d + (end_val - start_val) * (target_time - start_time)
    if 0 < d then pyRoundFrac num d else pyRoundFrac (-num) (-d)

/-- Round half to even over ℚ, phrased with the floor function; used only in
statements, to express "Python `round` of the exact real value". -/
def roundHalfEvenQ (q : ℚ) : ℤ :=
  if q - ⌊q⌋ < 1/2 then ⌊q⌋
  else if 1/2 < q - ⌊q⌋ then ⌊q⌋ + 1
  else if ⌊q⌋ % 2 = 0 then ⌊q⌋ else ⌊q⌋ + 1

/-- A binary64 (IEEE-754 double) value, exactly: the rational `m * 2^e`.
After rounding, `2^52 ≤ |m| < 2^53` (or `m = 0`); the exponent is
unbounded (no overflow or subnormal handling — faithful for every
magnitude these scripts process). -/
structure FP where
  m : ℤ
  e : ℤ
  deriving DecidableEq

/-- Fuel-driven ⌊log₂⌋ on ℕ: `log2Fuel f n` halves `n` until it reaches 1,
consuming one unit of fuel per step. -/
def log2Fuel : ℕ → ℕ → ℕ
  | 0, _ => 0
  | f + 1, n => if n ≤ 1 then 0 else log2Fuel f (n / 2) + 1

/-- ⌊log₂ n⌋ for `n ≥ 1` (`n` itself is always enough fuel). -/
def intLog2 (n : ℕ) : ℕ :=
  log2Fuel n n

/-- Round the exact rational `a / b` (`b ≠ 0`) to the nearest binary64,
ties to even — the IEEE-754 semantics of every double operation the
source performs. The quotient is scaled into `[2^52, 2^53)` using
`⌊log₂⌋` of the magnitude (computed via a 2^256 pre-scaling, ample for
these scripts' magnitudes), its 53-bit significand is obtained by
round-half-to-even (`pyRoundFrac`), and a carry into `2^53` moves to the
next binade. -/
def fpOfRat (a b : ℤ) : FP :=
  if a = 0 then ⟨0, 0⟩
  else
    let s : ℤ := if (0 < a) = (0 < b) then 1 else -1
    let a2 : ℤ := (a.natAbs : ℤ)
    let b2 : ℤ := (b.natAbs : ℤ)
    let q : ℤ := (a2 * 2 ^ (256 : ℕ)) / b2
    let L : ℤ := (intLog2 q.toNat : ℤ) - 256
    let sh : ℤ := 52 - L
    let num : ℤ := if 0 ≤ sh then a2 * 2 ^ sh.toNat else a2
    let den : ℤ := if 0 ≤ sh then b2 else b2 * 2 ^ (-sh).toNat
    let n : ℤ := pyRoundFrac num den
    if n = 2 ^ (53 : ℕ) then ⟨s * 2 ^ (52 : ℕ), L - 51⟩ else ⟨s * n, L - 52⟩

/-- Python `int * float`: the int converts to a double exactly (all counts
here are far below 2^53), the exact product is rounded to binary64. -/
def fpMulInt (c : ℤ) (x : FP) : FP :=
  if 0 ≤ x.e then fpOfRat (c * x.m * 2 ^ x.e.toNat) 1
  else fpOfRat (c * x.m) (2 ^ (-x.e).toNat)

/-- Python `int + float`: exact sum, rounded to binary64. -/
def fpAddInt (c : ℤ) (x : FP) : FP :=
  if 0 ≤ x.e then fpOfRat (c + x.m * 2 ^ x.e.toNat) 1
  else fpOfRat (c * 2 ^ (-x.e).toNat + x.m) (2 ^ (-x.e).toNat)

/-- Python `round` applied to a double: rounds the exact represented
value, half to even. -/
def pyRoundFP (x : FP) : ℤ :=
  if 0 ≤ x.e then x.m * 2 ^ x.e.toNat else pyRoundFrac x.m (2 ^ (-x.e).toNat)

/-- `interpolate_linear` with the source's floating-point arithmetic
modelled bit-faithfully: `ratio` is the double division of the two
(exact-integer-valued) `total_seconds()` doubles, then
`round(start_val + (end_val - start_val) * ratio)` with each operation
rounded to binary64. -/
def interpolate_linear_fp (start_val end_val start_time end_time target_time : ℤ) : ℤ :=
  if start_time = end_time then start_val
  else
    pyRoundFP (fpAddInt start_val
      (fpMulInt (end_val - start_val)
        (fpOfRat (target_time - start_time) (end_time - start_time))))

/-- Python `range(20, n, 20)`: the multiples of 20 that are ≥ 20 and < `n`.
There are `(n - 1) / 20` of them (ℕ subtraction/division). -/
def pyRange20 (n : ℕ) : List ℕ :=
  (List.range ((n - 1) / 20)).map (fun i => 20 * (i + 1))

/-- The strategic sampling of `add_nondraft_final.py` `main`, lines 159-164:
`sample_indices = [0]`, then every 20th row index below `n`, then the last
index `n - 1` unless it is already present. -/
def sample_indices (n : ℕ) : List ℕ :=
  let base : List ℕ := 0 :: pyRange20 n
  if n - 1 ∈ base then base else base ++ [n - 1]

/-- The five metric columns added by the backfill
(`NONDRAFT_QUERIES.values()` in `add_nondraft_final.py`). -/
def nondraft_keys : List String :=
  ["copilot_nondraft", "codex_nondraft", "cursor_nondraft",
   "devin_nondraft", "codegen_nondraft"]

/-- `max([i for i in sample_indices if i < idx])` from `main` line 210;
`none` models the `ValueError` Python raises on an empty list. -/
def prev_sample (n idx : ℕ) : Option ℕ :=
  ((sample_indices n).filter (fun s => decide (s < idx))).max?

/-- `min([i for i in sample_indices if i > idx])` from `main` line 211;
`none` models the `ValueError` Python raises on an empty list. -/
def next_sample (n idx : ℕ) : Option ℕ :=
  ((sample_indices n).filter (fun s => decide (idx < s))).min?

/-- One iteration of the output loop of `add_nondraft_final.py` `main`,
lines 201-227, restricted to the new metric columns: the values written for
row `idx`. `times j` is row `j`'s parsed timestamp in seconds, `sdata j k`
the authoritative sampled count of metric `k` at sampled row `j`.
A sampled row copies its sample; any other row interpolates between the
bracketing samples; `none` models the crash when no bracketing sample
exists. -/
def fillRow (n : ℕ) (times : ℕ → ℤ) (sdata : ℕ → String → ℤ) (idx : ℕ) :
    Option (List (String × ℤ)) :=
  if idx ∈ sample_indices n then
    some (nondraft_keys.map (fun k => (k, sdata idx k)))
  else
    match prev_sample n idx, next_sample n idx with
    | some p, some q =>
        some (nondraft_keys.map (fun k =>
          (k, interpolate_linear (sdata p k) (sdata q k)
                (times p) (times q) (times idx))))
    | _, _ => none

/-- The clamp applied per agent by `enforce_constraints` in
`scripts/add_nondraft_final.py` lines 115-137:
`nondraft = max(merged, min(nondraft, total))`. -/
def clamp_triple (total merged nondraft : ℤ) : ℤ :=
  max merged (min nondraft total)

/-- The three counters a row stores per agent. -/
structure AgentCounts where
  total : ℤ
  merged : ℤ
  nondraft : ℤ
  deriving DecidableEq

/-- A data row as `scripts/add_nondraft_final.py` sees it: the timestamp
column plus the per-agent counter triples. -/
structure Row where
  timestamp : String
  copilot : AgentCounts
  codex : AgentCounts
  cursor : AgentCounts
  devin : AgentCounts
  codegen : AgentCounts
  deriving DecidableEq

/-- The per-agent body of `enforce_constraints`: only the nondraft counter
is rewritten. -/
def clampAgent (a : AgentCounts) : AgentCounts :=
  { a with nondraft := clamp_triple a.total a.merged a.nondraft }

/-- `enforce_constraints` from `scripts/add_nondraft_final.py` lines 115-137,
applied to a row in which all three counters exist for every agent. -/
def enforce_constraints (r : Row) : Row :=
  { r with
    copilot := clampAgent r.copilot
    codex := clampAgent r.codex
    cursor := clampAgent r.cursor
    devin := clampAgent r.devin
    codegen := clampAgent r.codegen }

/-- A row as `scripts/reconcile_codegen_merged.py` accesses it: the
timestamp, the two codegen columns it reads/writes, and the remaining cells
(which it never touches). -/
structure RRow where
  timestamp : String
  codegen_total : ℤ
  codegen_merged : ℤ
  rest : List String
  deriving DecidableEq

/-- One audit record appended to `differences` in
`scripts/reconcile_codegen_merged.py` lines 128-137. `row` is the
1-based-with-header spreadsheet row number (`row_idx + 2`). -/
structure Diff where
  row : ℕ
  timestamp : String
  old_merged : ℤ
  new_merged : ℤ
  difference : ℤ
  deriving DecidableEq

/-- The reconciler's update of a single row (`main` lines 113-151).
`fetch` models `get_merged_count` composed with `parse_timestamp`: `none`
covers an API error or a raised exception, in which case the row is left
untouched. Rows with `codegen_total ≤ 0` are never visited. -/
def reconcile_row (fetch : String → Option ℤ) (r : RRow) : RRow :=
  if 0 < r.codegen_total then
    match fetch r.timestamp with
    | some v => { r with codegen_merged := v }
    | none => r
  else r

/-- The `differences` list accumulated by the reconciler over the rows
starting at 0-based row index `k`: one entry per visited row whose fetched
value exists and differs from the stored one. -/
def reconcile_diffs (fetch : String → Option ℤ) : ℕ → List RRow → List Diff
  | _, [] => []
  | k, r :: rs =>
      (if 0 < r.codegen_total then
        match fetch r.timestamp with
        | some v =>
            if v = r.codegen_merged then []
            else [⟨k + 2, r.timestamp, r.codegen_merged, v, v - r.codegen_merged⟩]
        | none => []
      else []) ++ reconcile_diffs fetch (k + 1) rs

/-- The whole reconciliation pass of `scripts/reconcile_codegen_merged.py`
`main` lines 99-157, mirroring the in-place loop: the updated row list and
the audit list, with `k` the 0-based index of the first row. -/
def reconcile_aux (fetch : String → Option ℤ) : ℕ → List RRow → List RRow × List Diff
  | _, [] => ([], [])
  | k, r :: rs =>
      let rec_rest := reconcile_aux fetch (k + 1) rs
      let r2 := reconcile_row fetch r
      let d :=
        (if 0 < r.codegen_total then
          match fetch r.timestamp with
          | some v =>
              if v = r.codegen_merged then []
              else [(⟨k + 2, r.timestamp, r.codegen_merged, v, v - r.codegen_merged⟩ : Diff)]
          | none => []
        else [])
      (r2 :: rec_rest.1, d ++ rec_rest.2)

/-- The reconciler run on the full table. -/
def reconcile (fetch : String → Option ℤ) (rows : List RRow) : List RRow × List Diff :=
  reconcile_aux fetch 0 rows

/-- The possible outcomes of one `requests.get` against the search API, as
the scripts distinguish them: a 200 with a count, a rate-limiting 403, a
403 that is not a rate limit, a 422 validation error, or a raised
exception (network failure / other HTTP error via `raise_for_status`). -/
inductive ApiResp where
  | ok (n : ℤ)
  | rate403
  | forbidden
  | invalid422
  | exn
  deriving DecidableEq

/-- `get_merged_count` from `scripts/reconcile_codegen_merged.py` lines
40-65, over the stream of responses the API returns for the repeated
attempts: a 200 returns its count; any 403 (its `elif` tests only the
status code, so rate-limited or not) sleeps 20s and recurses with no
attempt bound; any other status or an exception returns `None`. -/
def get_merged_count : List ApiResp → Option ℤ
  | [] => none
  | ApiResp.ok n :: _ => some n
  | ApiResp.rate403 :: rs => get_merged_count rs
  | ApiResp.forbidden :: rs => get_merged_count rs
  | ApiResp.invalid422 :: _ => none
  | ApiResp.exn :: _ => none

/-- The number of HTTP requests `get_merged_count` issues on a given
response stream: one per leading 403 plus the final non-403 attempt. -/
def get_merged_attempts : List ApiResp → ℕ
  | [] => 0
  | ApiResp.rate403 :: rs => get_merged_attempts rs + 1
  | ApiResp.forbidden :: rs => get_merged_attempts rs + 1
  | _ :: _ => 1

/-- One non-final attempt of the per-metric retry loop in
`add_nondraft_final.py` `get_nondraft_counts_at_time` lines 70-99:
`some v` means the loop breaks with `counts[key] = v` (200 or 422), `none`
that it continues to the next attempt (403 after a sleep, or an exception;
`forbidden` is a plain `status_code == 403` there, hence also retried). -/
def nondraftStep : ApiResp → Option ℤ
  | ApiResp.ok n => some n
  | ApiResp.invalid422 => some 0
  | ApiResp.rate403 => none
  | ApiResp.forbidden => none
  | ApiResp.exn => none

/-- The final attempt (`attempt == 2`) of the same loop: an exception now
stores `counts[key] = 0`; a 403 still just continues, so the loop ends
with the key never set (`none`). -/
def nondraftLast : ApiResp → Option ℤ
  | ApiResp.ok n => some n
  | ApiResp.invalid422 => some 0
  | ApiResp.rate403 => none
  | ApiResp.forbidden => none
  | ApiResp.exn => some 0

/-- The full three-attempt loop for one metric
(`for attempt in range(3)` in `get_nondraft_counts_at_time`): the value
stored in `counts[key]`, or `none` if the loop finishes without storing
one. `r0 r1 r2` are the responses the three attempts would receive. -/
def nondraft_metric (r0 r1 r2 : ApiResp) : Option ℤ :=
  match nondraftStep r0 with
  | some v => some v
  | none =>
    match nondraftStep r1 with
    | some v => some v
    | none => nondraftLast r2

/-- How many requests the three-attempt loop issues. -/
def nondraft_attempts (r0 r1 _r2 : ApiResp) : ℕ :=
  match nondraftStep r0 with
  | some _ => 1
  | none =>
    match nondraftStep r1 with
    | some _ => 2
    | none => 3

/-- `get_nondraft_counts_at_time` over all metric queries: each metric key
is processed by its own independent three-attempt loop, and the loop over
metrics never aborts early. -/
def get_nondraft_counts (traces : List (String × (ApiResp × ApiResp × ApiResp))) :
    List (String × Option ℤ) :=
  traces.map (fun t => (t.1, nondraft_metric t.2.1 t.2.2.1 t.2.2.2))

/-- Whether one attempt of the `collect_data.py` loop (lines 64-107)
terminates the loop: 200, 422 and a non-rate-limit 403 all `break`
(storing a count, zero, and nothing, respectively); a rate-limit 403 and
an exception lead to another attempt. -/
def collectTerminal : ApiResp → Bool
  | ApiResp.ok _ => true
  | ApiResp.invalid422 => true
  | ApiResp.forbidden => true
  | ApiResp.rate403 => false
  | ApiResp.exn => false

/-- Requests issued by the `max_attempts = 3` loop of `collect_data.py`
for one metric. -/
def collect_attempts (r0 r1 _r2 : ApiResp) : ℕ :=
  if collectTerminal r0 then 1
  else if collectTerminal r1 then 2
  else 3

/-- Zero-pad to two digits, as `%m %d %H %M %S` do in `strftime`. -/
def pad2 (n : ℕ) : String :=
  if n < 10 then "0" ++ toString n else toString n

/-- Zero-pad to four digits, as `%Y` does in `strftime`. -/
def pad4 (n : ℕ) : String :=
  if n < 10 then "000" ++ toString n
  else if n < 100 then "00" ++ toString n
  else if n < 1000 then "0" ++ toString n
  else toString n

/-- The timestamp string `collect_data.py` line 127 appends to the CSV:
`strftime` with format `"%Y‑%m‑%d %H:%M:%S"`, whose two date separators
are the Unicode NON-BREAKING HYPHEN U+2011, not the ASCII hyphen-minus. -/
def collect_timestamp (y mo d h mi s : ℕ) : String :=
  pad4 y ++ "‑" ++ pad2 mo ++ "‑" ++ pad2 d ++ " " ++
    pad2 h ++ ":" ++ pad2 mi ++ ":" ++ pad2 s

/-- The normalisation every reader applies before parsing
(`parse_timestamp` in `add_nondraft_final.py` line 29 and its twins):
`timestamp_str.replace("‑", "-")`, i.e. each U+2011 becomes an ASCII
hyphen-minus. -/
def normalize_timestamp (s : String) : String :=
  String.mk (s.data.map (fun c => if c = '‑' then '-' else c))

section RoundingLemmas

/-- The integer-fraction rounding agrees with the ℚ-level
round-half-to-even on every fraction with positive denominator. -/
theorem pyRoundFrac_eq_roundQ (num den : ℤ) (hden : 0 < den) :
    pyRoundFrac num den = roundHalfEvenQ ((num : ℚ) / (den : ℚ)) := by
  have hdQ : (0 : ℚ) < (den : ℚ) := by exact_mod_cast hden
  have hdQ0 : (den : ℚ) ≠ 0 := ne_of_gt hdQ
  have hr0 : 0 ≤ num % den := Int.emod_nonneg num (ne_of_gt hden)
  have hrd : num % den < den := Int.emod_lt_of_pos num hden
  have hnum : (num : ℚ) = (den : ℚ) * ((num / den : ℤ) : ℚ) + ((num % den : ℤ) : ℚ) := by
    exact_mod_cast (Int.ediv_add_emod num den).symm
  have hsplit : (num : ℚ) / (den : ℚ) =
      ((num / den : ℤ) : ℚ) + ((num % den : ℤ) : ℚ) / (den : ℚ) := by
    rw [hnum]
    field_simp
    ring
  have hfrac0 : (0 : ℚ) ≤ ((num % den : ℤ) : ℚ) / (den : ℚ) := by
    apply div_nonneg _ (le_of_lt hdQ)
    exact_mod_cast hr0
  have hfrac1 : ((num % den : ℤ) : ℚ) / (den : ℚ) < 1 := by
    rw [div_lt_one hdQ]
    exact_mod_cast hrd
  have hfloor : ⌊(num : ℚ) / (den : ℚ)⌋ = num / den := by
    rw [hsplit, Int.floor_int_add]
    have h0 : ⌊((num % den : ℤ) : ℚ) / (den : ℚ)⌋ = 0 :=
      Int.floor_eq_zero_iff.mpr ⟨hfrac0, hfrac1⟩
    omega
  have hfracEq : (num : ℚ) / (den : ℚ) - ((num / den : ℤ) : ℚ) =
      ((num % den : ℤ) : ℚ) / (den : ℚ) := by
    rw [hsplit]
    ring
  have hlt2 : (2 * (num % den) < den) ↔
      (((num % den : ℤ) : ℚ) / (den : ℚ) < 1/2) := by
    rw [div_lt_div_iff₀ hdQ (by norm_num : (0:ℚ) < 2)]
    constructor <;> intro h
    · have h3 : ((2 * (num % den) : ℤ) : ℚ) < ((den : ℤ) : ℚ) := by exact_mod_cast h
      push_cast at h3
      linarith
    · have h3 : ((2 * (num % den) : ℤ) : ℚ) < ((den : ℤ) : ℚ) := by push_cast; linarith
      exact_mod_cast h3
  have hgt2 : (den < 2 * (num % den)) ↔
      (1/2 < ((num % den : ℤ) : ℚ) / (den : ℚ)) := by
    rw [div_lt_div_iff₀ (by norm_num : (0:ℚ) < 2) hdQ]
    constructor <;> intro h
    · have h3 : ((den : ℤ) : ℚ) < ((2 * (num % den) : ℤ) : ℚ) := by exact_mod_cast h
      push_cast at h3
      linarith
    · have h3 : ((den : ℤ) : ℚ) < ((2 * (num % den) : ℤ) : ℚ) := by push_cast; linarith
      exact_mod_cast h3
  rw [pyRoundFrac, roundHalfEvenQ, hfloor, hfracEq]
  exact if_congr hlt2 rfl (if_congr hgt2 rfl rfl)

/-- `roundHalfEvenQ` at an exact midpoint returns the even neighbour. -/
theorem roundHalfEvenQ_midpoint (k : ℤ) :
    roundHalfEvenQ ((k : ℚ) + 1/2) = if k % 2 = 0 then k else k + 1 := by
  have hhalf : ⌊(1/2 : ℚ)⌋ = 0 := by
    apply Int.floor_eq_zero_iff.mpr
    constructor <;> norm_num
  have hfloor : ⌊(k : ℚ) + 1/2⌋ = k := by
    rw [Int.floor_int_add, hhalf]
    omega
  have hfrac : (k : ℚ) + 1/2 - ⌊(k : ℚ) + 1/2⌋ = 1/2 := by
    rw [hfloor]
    ring
  rw [roundHalfEvenQ, hfrac, hfloor]
  norm_num

/-- `interpolate_linear` computes the Python `round` (half to even) of the
exact value `start_val + (end_val - start_val) * ratio` whenever the two
sample times differ. -/
theorem interpolate_eq_roundQ (sv ev t0 t1 t : ℤ) (hne : t0 ≠ t1) :
    interpolate_linear sv ev t0 t1 t =
      roundHalfEvenQ ((sv : ℚ) + ((ev : ℚ) - (sv : ℚ)) *
        (((t : ℚ) - (t0 : ℚ)) / ((t1 : ℚ) - (t0 : ℚ)))) := by
  have hd0 : t1 - t0 ≠ 0 := fun h => hne (by omega)
  have hdQ0 : ((t1 : ℚ) - (t0 : ℚ)) ≠ 0 := by
    have h2 : ((t1 - t0 : ℤ) : ℚ) ≠ 0 := Int.cast_ne_zero.mpr hd0
    push_cast at h2
    exact h2
  have hval : ((sv * (t1 - t0) + (ev - sv) * (t - t0) : ℤ) : ℚ) / ((t1 - t0 : ℤ) : ℚ) =
      (sv : ℚ) + ((ev : ℚ) - (sv : ℚ)) *
        (((t : ℚ) - (t0 : ℚ)) / ((t1 : ℚ) - (t0 : ℚ))) := by
    push_cast
    field_simp
  simp only [interpolate_linear]
  rw [if_neg hne]
  rcases lt_trichotomy (t1 - t0) 0 with hlt | heq | hgt
  · rw [if_neg (by omega)]
    rw [pyRoundFrac_eq_roundQ _ _ (by omega)]
    rw [← hval]
    congr 1
    push_cast
    rw [neg_div_neg_eq]
  · exact absurd heq hd0
  · rw [if_pos hgt]
    rw [pyRoundFrac_eq_roundQ _ _ hgt]
    rw [← hval]

end RoundingLemmas

section SamplerLemmas

theorem pyRange20_ge {n x : ℕ} (hx : x ∈ pyRange20 n) : 20 ≤ x := by
  simp only [pyRange20, List.mem_map, List.mem_range] at hx
  obtain ⟨i, _, rfl⟩ := hx
  omega

theorem pyRange20_le {n x : ℕ} (hx : x ∈ pyRange20 n) : x ≤ n - 1 := by
  simp only [pyRange20, List.mem_map, List.mem_range] at hx
  obtain ⟨i, hi, rfl⟩ := hx
  have h1 : i + 1 ≤ (n - 1) / 20 := hi
  have h2 : 20 * (i + 1) ≤ 20 * ((n - 1) / 20) := by omega
  have h3 : (n - 1) / 20 * 20 ≤ n - 1 := Nat.div_mul_le_self (n - 1) 20
  omega

theorem pyRange20_sorted (n : ℕ) : List.Sorted (· < ·) (pyRange20 n) :=
  List.Pairwise.map _ (fun a b h => by omega) (List.pairwise_lt_range _)

theorem base_sorted (n : ℕ) : List.Sorted (· < ·) (0 :: pyRange20 n) :=
  List.sorted_cons.mpr
    ⟨fun b hb => lt_of_lt_of_le (by norm_num) (pyRange20_ge hb), pyRange20_sorted n⟩

theorem sample_indices_sorted (n : ℕ) : List.Sorted (· < ·) (sample_indices n) := by
  simp only [sample_indices]
  split
  · exact base_sorted n
  · next hmem =>
    apply List.pairwise_append.mpr
    refine ⟨base_sorted n, List.pairwise_singleton _ _, ?_⟩
    intro x hx y hy
    have hy2 : y = n - 1 := by simpa using hy
    subst hy2
    have hxle : x ≤ n - 1 := by
      rcases List.mem_cons.mp hx with h0 | hr
      · omega
      · exact pyRange20_le hr
    have hxne : x ≠ n - 1 := fun h => hmem (h ▸ hx)
    omega

theorem zero_mem_sample (n : ℕ) : 0 ∈ sample_indices n := by
  simp only [sample_indices]
  split
  · exact List.mem_cons_self _ _
  · exact List.mem_append_left _ (List.mem_cons_self _ _)

theorem last_mem_sample (n : ℕ) : n - 1 ∈ sample_indices n := by
  simp only [sample_indices]
  split
  · assumption
  · exact List.mem_append_right _ (List.mem_singleton.mpr rfl)

theorem sample_indices_lt {n : ℕ} (hn : 1 ≤ n) :
    ∀ x ∈ sample_indices n, x < n := by
  intro x hx
  simp only [sample_indices] at hx
  have hbase : ∀ y ∈ (0 :: pyRange20 n), y < n := by
    intro y hy
    rcases List.mem_cons.mp hy with h0 | hr
    · omega
    · have := pyRange20_le hr
      omega
  split at hx
  · exact hbase x hx
  · rcases List.mem_append.mp hx with h1 | h2
    · exact hbase x h1
    · have : x = n - 1 := by simpa using h2
      omega

theorem sample_indices_nodup (n : ℕ) : (sample_indices n).Nodup :=
  (sample_indices_sorted n).nodup

theorem isSome_max?_of_ne_nil {l : List ℕ} (h : l ≠ []) : l.max?.isSome := by
  cases hm : l.max? with
  | none => exact absurd (List.max?_eq_none_iff.mp hm) h
  | some v => rfl

theorem isSome_min?_of_ne_nil {l : List ℕ} (h : l ≠ []) : l.min?.isSome := by
  cases hm : l.min? with
  | none => exact absurd (List.min?_eq_none_iff.mp hm) h
  | some v => rfl

theorem prev_sample_isSome {n idx : ℕ} (_hidx : idx < n)
    (hnot : idx ∉ sample_indices n) : (prev_sample n idx).isSome := by
  have h0 : idx ≠ 0 := fun h => hnot (h ▸ zero_mem_sample n)
  apply isSome_max?_of_ne_nil
  apply List.ne_nil_of_mem (a := 0)
  apply List.mem_filter.mpr
  exact ⟨zero_mem_sample n, by simpa using Nat.pos_of_ne_zero h0⟩

theorem next_sample_isSome {n idx : ℕ} (hidx : idx < n)
    (hnot : idx ∉ sample_indices n) : (next_sample n idx).isSome := by
  have hlast : idx ≠ n - 1 := fun h => hnot (h ▸ last_mem_sample n)
  apply isSome_min?_of_ne_nil
  apply List.ne_nil_of_mem (a := n - 1)
  apply List.mem_filter.mpr
  refine ⟨last_mem_sample n, ?_⟩
  simp only [decide_eq_true_eq]
  omega

theorem fillRow_isSome {n idx : ℕ} (times : ℕ → ℤ) (sdata : ℕ → String → ℤ)
    (hidx : idx < n) : (fillRow n times sdata idx).isSome := by
  by_cases hmem : idx ∈ sample_indices n
  · simp [fillRow, hmem]
  · obtain ⟨p, hp⟩ := Option.isSome_iff_exists.mp (prev_sample_isSome hidx hmem)
    obtain ⟨q, hq⟩ := Option.isSome_iff_exists.mp (next_sample_isSome hidx hmem)
    simp [fillRow, hmem, hp, hq]

theorem lookup_map_self (keys : List String) (f : String → ℤ) (k : String)
    (hk : k ∈ keys) :
    (keys.map (fun x => (x, f x))).lookup k = some (f k) := by
  induction keys with
  | nil => cases hk
  | cons a xs ih =>
    by_cases h : k = a
    · subst h
      simp [List.lookup]
    · have hk2 : k ∈ xs := by
        rcases List.mem_cons.mp hk with h1 | h2
        · exact absurd h1 h
        · exact h2
      have hba : (k == a) = false := beq_eq_false_iff_ne.mpr h
      simpa [List.lookup, hba] using ih hk2

end SamplerLemmas

section ReconcilerLemmas

theorem reconcile_aux_spec (fetch : String → Option ℤ) (rows : List RRow) :
    ∀ k, reconcile_aux fetch k rows =
      (rows.map (reconcile_row fetch), reconcile_diffs fetch k rows) := by
  induction rows with
  | nil => intro k; rfl
  | cons r rs ih =>
    intro k
    simp only [reconcile_aux, reconcile_diffs, ih, List.map_cons]

theorem reconcile_diffs_length (fetch : String → Option ℤ) (rows : List RRow) :
    ∀ k, (reconcile_diffs fetch k rows).length =
      rows.countP (fun r => decide (0 < r.codegen_total) &&
        ((fetch r.timestamp).elim false (fun v => decide (v ≠ r.codegen_merged)))) := by
  induction rows with
  | nil => intro k; rfl
  | cons r rs ih =>
    intro k
    simp only [reconcile_diffs, List.length_append, ih, List.countP_cons]
    by_cases hp : 0 < r.codegen_total
    · cases hf : fetch r.timestamp with
      | none => simp [hp, hf]
      | some v =>
        by_cases hv : v = r.codegen_merged
        · simp [hp, hf, hv]
        · simp [hp, hf, hv]
          omega
    · simp [hp]

theorem reconcile_diffs_entries (fetch : String → Option ℤ) (rows : List RRow) :
    ∀ k, ∀ d ∈ reconcile_diffs fetch k rows,
      d.new_merged ≠ d.old_merged ∧ d.difference = d.new_merged - d.old_merged := by
  induction rows with
  | nil => intro k d hd; cases hd
  | cons r rs ih =>
    intro k d hd
    simp only [reconcile_diffs] at hd
    rcases List.mem_append.mp hd with h1 | h2
    · by_cases hp : 0 < r.codegen_total
      · rw [if_pos hp] at h1
        cases hf : fetch r.timestamp with
        | none => simp only [hf] at h1; cases h1
        | some v =>
          simp only [hf] at h1
          by_cases hv : v = r.codegen_merged
          · rw [if_pos hv] at h1; cases h1
          · rw [if_neg hv] at h1
            have hd2 : d = ⟨k + 2, r.timestamp, r.codegen_merged, v, v - r.codegen_merged⟩ := by
              simpa using h1
            subst hd2
            exact ⟨hv, rfl⟩
      · rw [if_neg hp] at h1; cases h1
    · exact ih (k + 1) d h2

end ReconcilerLemmas

section Claims

/-- C1 counterexample: the program computes the interpolation in IEEE-754
doubles, so it does not equal the round of the exact seconds-resolution
value: for samples 0 at t=0s and 45 at t=10s, at t=7s the exact value is
31.5 and its Python round is 32, but the source evaluates
`45 * (7/10) = 31.499999999999996` and returns 31. The exact-rational
model returns 32 there. -/
theorem C1_float_counterexample :
    interpolate_linear_fp 0 45 0 10 7 = 31 ∧
    roundHalfEvenQ ((0 : ℚ) + ((45 : ℚ) - (0 : ℚ)) *
      (((7 : ℚ) - (0 : ℚ)) / ((10 : ℚ) - (0 : ℚ)))) = 32 ∧
    interpolate_linear_fp 0 45 0 10 7 ≠
      roundHalfEvenQ ((0 : ℚ) + ((45 : ℚ) - (0 : ℚ)) *
        (((7 : ℚ) - (0 : ℚ)) / ((10 : ℚ) - (0 : ℚ)))) ∧
    interpolate_linear 0 45 0 10 7 = 32 := by
  have hmid : (0 : ℚ) + ((45 : ℚ) - (0 : ℚ)) *
      (((7 : ℚ) - (0 : ℚ)) / ((10 : ℚ) - (0 : ℚ))) = (((31 : ℤ) : ℚ)) + 1/2 := by
    norm_num
  have h2 : roundHalfEvenQ ((0 : ℚ) + ((45 : ℚ) - (0 : ℚ)) *
      (((7 : ℚ) - (0 : ℚ)) / ((10 : ℚ) - (0 : ℚ)))) = 32 := by
    rw [hmid, roundHalfEvenQ_midpoint]
    decide
  refine ⟨by decide, h2, ?_, by decide⟩
  rw [h2]
  decide

/-- C1 (amended): when `t_prev = t_next` the program returns `prev_value`
exactly, with no division; the boundary samples 10 at t=0s and 20 at
t=100s interpolate — under the program's actual float arithmetic — to 15
at t=50s, 10 at t=0s and 20 at t=100s; and the formula
`round(prev + (next - prev) * (t_i - t_prev) / (t_next - t_prev))` over
the exact seconds-resolution values describes the idealised
exact-rational evaluation of the source expression, while the program's
IEEE-754 evaluation can differ from it where the doubles land on the
other side of a rounding boundary. -/
theorem C1_interpolation_formula (sv ev t0 t1 t : ℤ) :
    (t0 = t1 → interpolate_linear_fp sv ev t0 t1 t = sv) ∧
    (t0 ≠ t1 → interpolate_linear sv ev t0 t1 t =
      roundHalfEvenQ ((sv : ℚ) + ((ev : ℚ) - (sv : ℚ)) *
        (((t : ℚ) - (t0 : ℚ)) / ((t1 : ℚ) - (t0 : ℚ))))) ∧
    interpolate_linear_fp 10 20 0 100 50 = 15 ∧
    interpolate_linear_fp 10 20 0 100 0 = 10 ∧
    interpolate_linear_fp 10 20 0 100 100 = 20 := by
  refine ⟨?_, interpolate_eq_roundQ sv ev t0 t1 t, by decide, by decide, by decide⟩
  intro h
  simp [interpolate_linear_fp, h]

/-- Witness for C1 at concrete inputs: the degenerate-time branch at
`t_prev = t_next = 5`, and the formula branch at the boundary-check data. -/
theorem C1_interpolation_formula_witness :
    interpolate_linear_fp 7 9 5 5 123 = 7 ∧
    interpolate_linear 10 20 0 100 50 =
      roundHalfEvenQ ((10 : ℚ) + ((20 : ℚ) - (10 : ℚ)) *
        (((50 : ℚ) - (0 : ℚ)) / ((100 : ℚ) - (0 : ℚ)))) :=
  ⟨(C1_interpolation_formula 7 9 5 5 123).1 rfl,
   (C1_interpolation_formula 10 20 0 100 50).2.1 (by decide)⟩

/-- C2: for every `n ≥ 1` the sample-index selection is strictly
increasing, contains 0 and `n-1`, contains no index ≥ n and no
duplicates; for `n = 1` it is exactly `[0]` and for `n = 25` exactly
`[0, 20, 24]`. -/
theorem C2_sampler_contract (n : ℕ) (hn : 1 ≤ n) :
    List.Sorted (· < ·) (sample_indices n) ∧
    0 ∈ sample_indices n ∧
    (n - 1) ∈ sample_indices n ∧
    (∀ i ∈ sample_indices n, i < n) ∧
    (sample_indices n).Nodup ∧
    sample_indices 1 = [0] ∧
    sample_indices 25 = [0, 20, 24] :=
  ⟨sample_indices_sorted n, zero_mem_sample n, last_mem_sample n,
   sample_indices_lt hn, sample_indices_nodup n, by decide, by decide⟩

/-- Witness for C2 at `n = 25`. -/
theorem C2_sampler_contract_witness :
    sample_indices 25 = [0, 20, 24] ∧ 0 ∈ sample_indices 25 :=
  ⟨(C2_sampler_contract 25 (by decide)).2.2.2.2.2.2,
   (C2_sampler_contract 25 (by decide)).2.1⟩

/-- C3: `clamp_triple` returns `max(merged, min(nondraft, total))`, is
idempotent, changes no field of the row other than the per-agent
nondraft counters, and maps (100, 80, 50) to 80 and (100, 20, 150)
to 100. -/
theorem C3_clamp_contract (total merged nondraft : ℤ) (r : Row) :
    clamp_triple total merged nondraft = max merged (min nondraft total) ∧
    clamp_triple total merged (clamp_triple total merged nondraft) =
      clamp_triple total merged nondraft ∧
    (enforce_constraints r).timestamp = r.timestamp ∧
    (enforce_constraints r).copilot.total = r.copilot.total ∧
    (enforce_constraints r).copilot.merged = r.copilot.merged ∧
    (enforce_constraints r).codex.total = r.codex.total ∧
    (enforce_constraints r).codex.merged = r.codex.merged ∧
    (enforce_constraints r).cursor.total = r.cursor.total ∧
    (enforce_constraints r).cursor.merged = r.cursor.merged ∧
    (enforce_constraints r).devin.total = r.devin.total ∧
    (enforce_constraints r).devin.merged = r.devin.merged ∧
    (enforce_constraints r).codegen.total = r.codegen.total ∧
    (enforce_constraints r).codegen.merged = r.codegen.merged ∧
    (enforce_constraints r).copilot.nondraft =
      clamp_triple r.copilot.total r.copilot.merged r.copilot.nondraft ∧
    (enforce_constraints r).codegen.nondraft =
      clamp_triple r.codegen.total r.codegen.merged r.codegen.nondraft ∧
    clamp_triple 100 80 50 = 80 ∧
    clamp_triple 100 20 150 = 100 := by
  refine ⟨rfl, ?_, rfl, rfl, rfl, rfl, rfl, rfl, rfl, rfl, rfl, rfl, rfl,
    rfl, rfl, by decide, by decide⟩
  unfold clamp_triple
  omega

/-- C4: backfill fills every row with a value for every new metric
column, and at a sampled index the output equals the authoritative
sample value exactly. -/
theorem C4_fill_total (n : ℕ) (times : ℕ → ℤ) (sdata : ℕ → String → ℤ)
    (idx : ℕ) (_hn : 1 ≤ n) (hidx : idx < n) :
    ∃ r, fillRow n times sdata idx = some r ∧
      (∀ k ∈ nondraft_keys, (r.lookup k).isSome) ∧
      (idx ∈ sample_indices n →
        ∀ k ∈ nondraft_keys, r.lookup k = some (sdata idx k)) := by
  by_cases hmem : idx ∈ sample_indices n
  · refine ⟨nondraft_keys.map (fun k => (k, sdata idx k)),
      by simp [fillRow, hmem], ?_, ?_⟩
    · intro k hk
      rw [lookup_map_self _ _ _ hk]
      rfl
    · intro _ k hk
      exact lookup_map_self _ _ _ hk
  · obtain ⟨p, hp⟩ := Option.isSome_iff_exists.mp (prev_sample_isSome hidx hmem)
    obtain ⟨q, hq⟩ := Option.isSome_iff_exists.mp (next_sample_isSome hidx hmem)
    refine ⟨nondraft_keys.map (fun k =>
        (k, interpolate_linear (sdata p k) (sdata q k)
              (times p) (times q) (times idx))),
      by simp [fillRow, hmem, hp, hq], ?_, fun h => absurd h hmem⟩
    intro k hk
    rw [lookup_map_self _ _ _ hk]
    rfl

/-- Witness for C4: a 25-row series, non-sampled row 5, constant data. -/
theorem C4_fill_total_witness :
    ∃ r, fillRow 25 (fun _ => (0:ℤ)) (fun _ _ => (7:ℤ)) 5 = some r ∧
      (∀ k ∈ nondraft_keys, (r.lookup k).isSome) ∧
      (5 ∈ sample_indices 25 →
        ∀ k ∈ nondraft_keys, r.lookup k = some 7) :=
  C4_fill_total 25 (fun _ => 0) (fun _ _ => 7) 5 (by decide) (by decide)

/-- C5: for every `n ≥ 1` and non-sampled row index `idx < n`, both
bracketing sample lookups succeed (the sampler always includes 0 and
`n-1`), so the backfill loop's `max`/`min` never hit an empty list and
the no-valid-pair error branch is unreachable. -/
theorem C5_bracketing_safe (n idx : ℕ) (_hn : 1 ≤ n) (hidx : idx < n)
    (hnot : idx ∉ sample_indices n) :
    (prev_sample n idx).isSome ∧ (next_sample n idx).isSome ∧
    ∀ (times : ℕ → ℤ) (sdata : ℕ → String → ℤ),
      (fillRow n times sdata idx).isSome :=
  ⟨prev_sample_isSome hidx hnot, next_sample_isSome hidx hnot,
   fun times sdata => fillRow_isSome times sdata hidx⟩

/-- Witness for C5 at `n = 25`, `idx = 5`. -/
theorem C5_bracketing_safe_witness :
    (prev_sample 25 5).isSome ∧
    (fillRow 25 (fun _ => (0:ℤ)) (fun _ _ => (0:ℤ)) 5).isSome :=
  ⟨(C5_bracketing_safe 25 5 (by decide) (by decide) (by decide)).1,
   (C5_bracketing_safe 25 5 (by decide) (by decide) (by decide)).2.2 _ _⟩

/-- C6: the reconciler rewrites only the target column of rows matching
its predicate (`codegen_total > 0`); non-matching rows and rows whose
fetch failed are returned unchanged; every other field of a rewritten
row is preserved; and the diff list has exactly one entry per
predicate-matching row whose fetched value differs from the stored one,
each recording the change faithfully. -/
theorem C6_reconciler_frame (fetch : String → Option ℤ) (rows : List RRow) :
    (reconcile fetch rows).1 = rows.map (reconcile_row fetch) ∧
    (∀ r : RRow, ¬ 0 < r.codegen_total → reconcile_row fetch r = r) ∧
    (∀ r : RRow, fetch r.timestamp = none → reconcile_row fetch r = r) ∧
    (∀ (r : RRow) (v : ℤ), 0 < r.codegen_total → fetch r.timestamp = some v →
      reconcile_row fetch r = { r with codegen_merged := v }) ∧
    (∀ r : RRow, (reconcile_row fetch r).timestamp = r.timestamp ∧
      (reconcile_row fetch r).codegen_total = r.codegen_total ∧
      (reconcile_row fetch r).rest = r.rest) ∧
    (reconcile fetch rows).2.length = rows.countP (fun r =>
      decide (0 < r.codegen_total) &&
      ((fetch r.timestamp).elim false (fun v => decide (v ≠ r.codegen_merged)))) ∧
    (∀ d ∈ (reconcile fetch rows).2,
      d.new_merged ≠ d.old_merged ∧
      d.difference = d.new_merged - d.old_merged) := by
  refine ⟨?_, ?_, ?_, ?_, ?_, ?_, ?_⟩
  · rw [reconcile, reconcile_aux_spec]
  · intro r hr
    simp [reconcile_row, hr]
  · intro r hr
    unfold reconcile_row
    split
    · rw [hr]
    · rfl
  · intro r v hp hf
    simp [reconcile_row, hp, hf]
  · intro r
    unfold reconcile_row
    split
    · cases hf : fetch r.timestamp <;> simp
    · simp
  · rw [reconcile, reconcile_aux_spec]
    exact reconcile_diffs_length fetch rows 0
  · rw [reconcile, reconcile_aux_spec]
    exact reconcile_diffs_entries fetch rows 0

/-- Witness for C6: a two-row table where row "a" fails the predicate
and row "b" matches with a fetched value differing from the stored 7. -/
theorem C6_reconciler_frame_witness :
    reconcile_row (fun s => if s = "b" then some (9:ℤ) else none)
      ⟨"a", 0, 5, []⟩ = ⟨"a", 0, 5, []⟩ ∧
    reconcile_row (fun s => if s = "b" then some (9:ℤ) else none)
      ⟨"b", 3, 7, ["x"]⟩ = ⟨"b", 3, 9, ["x"]⟩ :=
  ⟨(C6_reconciler_frame (fun s => if s = "b" then some (9:ℤ) else none) []).2.1
      ⟨"a", 0, 5, []⟩ (by decide),
   (C6_reconciler_frame (fun s => if s = "b" then some (9:ℤ) else none) []).2.2.2.1
      ⟨"b", 3, 7, ["x"]⟩ 9 (by decide) (by decide)⟩

/-- C7 counterexample: the reconciler's `get_merged_count` retries a
rate-limited query once per 403 response with no attempt cap: four
consecutive 403s followed by a success make five attempts, exceeding
the claimed cap of three, and still succeed. -/
theorem C7_counterexample_unbounded :
    get_merged_attempts
      [ApiResp.rate403, ApiResp.rate403, ApiResp.rate403, ApiResp.rate403,
       ApiResp.ok 5] = 5 ∧
    get_merged_count
      [ApiResp.rate403, ApiResp.rate403, ApiResp.rate403, ApiResp.rate403,
       ApiResp.ok 5] = some 5 ∧
    ¬ get_merged_attempts
      [ApiResp.rate403, ApiResp.rate403, ApiResp.rate403, ApiResp.rate403,
       ApiResp.ok 5] ≤ 3 := by
  refine ⟨rfl, rfl, by decide⟩

/-- C7 (amended): the per-metric retry loops of the collector and of the
nondraft backfill are capped at three attempts, but the reconciler's
`get_merged_count` is not: on `j` consecutive rate-limit responses
followed by a success it performs `j + 1` attempts (unbounded in `j`)
and returns the fetched count. -/
theorem C7_attempt_caps :
    (∀ r0 r1 r2 : ApiResp, nondraft_attempts r0 r1 r2 ≤ 3) ∧
    (∀ r0 r1 r2 : ApiResp, collect_attempts r0 r1 r2 ≤ 3) ∧
    (∀ (j : ℕ) (v : ℤ),
      get_merged_attempts
        (List.replicate j ApiResp.rate403 ++ [ApiResp.ok v]) = j + 1 ∧
      get_merged_count
        (List.replicate j ApiResp.rate403 ++ [ApiResp.ok v]) = some v) := by
  refine ⟨?_, ?_, ?_⟩
  · intro r0 r1 r2
    cases r0 <;> cases r1 <;> simp [nondraft_attempts, nondraftStep]
  · intro r0 r1 r2
    cases r0 <;> cases r1 <;> simp [collect_attempts, collectTerminal]
  · intro j v
    induction j with
    | zero => exact ⟨rfl, rfl⟩
    | succ m ih =>
      refine ⟨?_, ?_⟩
      · simp only [List.replicate_succ, List.cons_append, get_merged_attempts,
          List.append_eq, ih.1]
      · simp only [List.replicate_succ, List.cons_append, get_merged_count,
          List.append_eq, ih.2]

/-- C8: in the backfill's per-metric loop, a 422 validation failure
stores zero immediately with no retry (also when reached after retried
attempts); a transient failure (exception) still present on the final
attempt stores zero; and the run always continues: every metric is
processed independently, so one metric's failure never aborts the run. -/
theorem C8_error_taxonomy :
    (∀ r1 r2 : ApiResp, nondraft_metric ApiResp.invalid422 r1 r2 = some 0 ∧
      nondraft_attempts ApiResp.invalid422 r1 r2 = 1) ∧
    (∀ r0 r2 : ApiResp, nondraftStep r0 = none →
      nondraft_metric r0 ApiResp.invalid422 r2 = some 0 ∧
      nondraft_attempts r0 ApiResp.invalid422 r2 = 2) ∧
    (∀ r0 r1 : ApiResp, nondraftStep r0 = none → nondraftStep r1 = none →
      nondraft_metric r0 r1 ApiResp.exn = some 0) ∧
    (∀ traces : List (String × (ApiResp × ApiResp × ApiResp)),
      (get_nondraft_counts traces).length = traces.length) ∧
    (∀ (traces : List (String × (ApiResp × ApiResp × ApiResp))) (i : ℕ) t,
      traces[i]? = some t →
      (get_nondraft_counts traces)[i]? =
        some (t.1, nondraft_metric t.2.1 t.2.2.1 t.2.2.2)) := by
  refine ⟨?_, ?_, ?_, ?_, ?_⟩
  · intro r1 r2
    exact ⟨rfl, rfl⟩
  · intro r0 r2 h0
    rw [nondraft_metric, nondraft_attempts, h0]
    exact ⟨rfl, rfl⟩
  · intro r0 r1 h0 h1
    rw [nondraft_metric, h0, h1]
    rfl
  · intro traces
    simp [get_nondraft_counts]
  · intro traces i t ht
    simp [get_nondraft_counts, List.getElem?_map, ht]

/-- Witness for C8: a 422 on the first attempt, a 422 after one retried
attempt, and exceptions through the final attempt all store zero. -/
theorem C8_error_taxonomy_witness :
    nondraft_metric ApiResp.invalid422 ApiResp.exn ApiResp.exn = some 0 ∧
    nondraft_metric ApiResp.rate403 ApiResp.invalid422 ApiResp.exn = some 0 ∧
    nondraft_metric ApiResp.exn ApiResp.rate403 ApiResp.exn = some 0 :=
  ⟨(C8_error_taxonomy.1 ApiResp.exn ApiResp.exn).1,
   (C8_error_taxonomy.2.1 ApiResp.rate403 ApiResp.exn rfl).1,
   C8_error_taxonomy.2.2.1 ApiResp.exn ApiResp.rate403 rfl rfl⟩

/-- C9: the collector writes its timestamps with U+2011 NON-BREAKING
HYPHEN date separators, not ASCII hyphens — the written string for
2025-06-01 12:00:00 UTC contains no ASCII hyphen at all — while every
reader normalises each U+2011 to an ASCII hyphen before parsing, and
the normalised output never contains a U+2011. -/
theorem C9_unicode_dash :
    collect_timestamp 2025 6 1 12 0 0 = "2025‑06‑01 12:00:00" ∧
    ('-' ∉ (collect_timestamp 2025 6 1 12 0 0).data) ∧
    ('‑' ∈ (collect_timestamp 2025 6 1 12 0 0).data) ∧
    normalize_timestamp (collect_timestamp 2025 6 1 12 0 0) =
      "2025-06-01 12:00:00" ∧
    (∀ s : String, '‑' ∉ (normalize_timestamp s).data) := by
  refine ⟨by decide, by decide, by decide, by decide, ?_⟩
  intro s h
  have h2 : '‑' ∈ s.data.map (fun c => if c = '‑' then '-' else c) := h
  obtain ⟨a, _, hEq⟩ := List.mem_map.mp h2
  by_cases ha : a = '‑'
  · rw [if_pos ha] at hEq
    exact absurd hEq (by decide)
  · rw [if_neg ha] at hEq
    exact ha hEq

/-- C10 counterexample: under the program's IEEE-754 arithmetic, an
interpolation whose exact value is a midpoint does not reliably return
the even neighbour: for 0 at t=0s and 210 at t=12s, at t=7s the exact
value is 122.5 whose even neighbour is 122, but the source computes
`210 * (7/12) = 122.50000000000001` and returns 123; for 0 at t=0s and
45 at t=10s, at t=7s the exact value is 31.5 whose even neighbour is 32,
but the source computes 31.499999999999996 and returns 31. -/
theorem C10_float_counterexample :
    ((0 : ℚ) + ((210 : ℚ) - (0 : ℚ)) *
      (((7 : ℚ) - (0 : ℚ)) / ((12 : ℚ) - (0 : ℚ))) = (122 : ℚ) + 1/2) ∧
    interpolate_linear_fp 0 210 0 12 7 = 123 ∧
    interpolate_linear_fp 0 210 0 12 7 ≠ 122 ∧
    ((0 : ℚ) + ((45 : ℚ) - (0 : ℚ)) *
      (((7 : ℚ) - (0 : ℚ)) / ((10 : ℚ) - (0 : ℚ))) = (31 : ℚ) + 1/2) ∧
    interpolate_linear_fp 0 45 0 10 7 = 31 ∧
    interpolate_linear_fp 0 45 0 10 7 ≠ 32 :=
  ⟨by norm_num, by decide, by decide, by norm_num, by decide, by decide⟩

/-- C10 (amended): under exact-rational evaluation of the interpolation
arithmetic, Python's rounding is half to even: whenever the exact value
of the interpolation formula is an integer plus one half, the result is
the even neighbour, hence always an even integer. Under the program's
actual IEEE-754 evaluation a midpoint-valued interpolation can return
either neighbour, because the double arithmetic perturbs the value off
the midpoint before `round` sees it. -/
theorem C10_round_half_even (sv ev t0 t1 t k : ℤ) (hne : t0 ≠ t1)
    (hmid : (sv : ℚ) + ((ev : ℚ) - (sv : ℚ)) *
      (((t : ℚ) - (t0 : ℚ)) / ((t1 : ℚ) - (t0 : ℚ))) = (k : ℚ) + 1/2) :
    interpolate_linear sv ev t0 t1 t = (if k % 2 = 0 then k else k + 1) ∧
    interpolate_linear sv ev t0 t1 t % 2 = 0 := by
  have h1 : interpolate_linear sv ev t0 t1 t = roundHalfEvenQ ((k : ℚ) + 1/2) := by
    rw [interpolate_eq_roundQ sv ev t0 t1 t hne, hmid]
  rw [h1, roundHalfEvenQ_midpoint]
  refine ⟨rfl, ?_⟩
  split_ifs with h <;> omega

/-- Witness for C10: interpolating 0 → 3 halfway gives the exact
midpoint 3/2, which rounds to the even integer 2. -/
theorem C10_round_half_even_witness :
    interpolate_linear 0 3 0 2 1 = (if (1:ℤ) % 2 = 0 then 1 else 1 + 1) ∧
    interpolate_linear 0 3 0 2 1 % 2 = 0 :=
  C10_round_half_even 0 3 0 2 1 1 (by decide) (by norm_num)

end Claims

end PRarena
